import Mathlib

/-!
Verification of the profile-language parser (`crates/witx2/src/ast/profile.rs`).

The parser consumes a token stream produced by the tokenizer of `lex.rs`
(not part of the sources at hand); the tokenizer state and its primitive
operations (`next_raw`, filtered `next`, `expect`, `get_span`, `parse_str`,
`format_expected_error`) are therefore modelled from the spec, section 4.1.
Everything in the `Profile` namespace below those primitives is a direct
translation of `profile.rs`: `Docs.parse`, `Id.parse`, `Item.parse`,
`Extend.parse`, `Provide.parse`, `Require.parse`, `Implement.parse` and
`Ast.parse`.
-/

namespace Profile

/-- Byte-offset range into the source buffer (`lex::Span`); `end_` renders
the Rust field `end`. -/
structure Span where
  start : Nat
  end_ : Nat
  deriving DecidableEq, Repr

/-- The closed token tag set of the profile lexer (`lex::profile::Token`). -/
inductive Token where
  | Whitespace
  | Comment
  | Id
  | StrLit
  | Extend
  | Provide
  | Require
  | Implement
  | With
  deriving DecidableEq, Repr

/-- Modelled from the spec: the human-readable description of a token used
by the uniform "expected ..., found ..." error formatter of the missing
tokenizer (`lex.rs`). -/
def Token.describe : Token → String
  | .Whitespace => "whitespace"
  | .Comment => "a comment"
  | .Id => "an identifier"
  | .StrLit => "a string"
  | .Extend => "keyword `extend`"
  | .Provide => "keyword `provide`"
  | .Require => "keyword `require`"
  | .Implement => "keyword `implement`"
  | .With => "keyword `with`"

/-- A parse error (`crate::Error`): a source span plus a message. -/
structure Error where
  span : Span
  msg : String
  deriving DecidableEq, Repr

/-- Modelled from the spec: the state of the missing tokenizer
(`lex::Tokenizer`).  `tokens` is the raw token stream still ahead of the
cursor (each token with its span), `pos` the committed cursor byte offset,
`eof` the end-of-input marker span used when an error points past the last
token, `get_span` recovers the verbatim source slice of a span and
`parse_str` the escape-decoded text of a string-literal span.  Rust's
`tokenizer.clone()` is ordinary value copying here. -/
structure Tokenizer where
  tokens : List (Span × Token)
  pos : Nat
  eof : Span
  get_span : Span → String
  parse_str : Span → String

/-- Modelled from the spec: produce the next raw token (whitespace and
comments included) and the advanced tokenizer, or `none` at end of input.
The committed cursor moves to the end of the consumed token's span. -/
def Tokenizer.next_raw (t : Tokenizer) : Option ((Span × Token) × Tokenizer) :=
  match t.tokens with
  | [] => none
  | x :: rest => some (x, { t with tokens := rest, pos := x.1.end_ })

/-- Modelled from the spec: the filtered `next`, skipping whitespace and
comment tokens, used by all syntax-level parsing. -/
def Tokenizer.next (t : Tokenizer) : Option ((Span × Token) × Tokenizer) :=
  match h : t.tokens with
  | [] => none
  | (sp, tok) :: rest =>
    if tok = Token.Whitespace ∨ tok = Token.Comment then
      Tokenizer.next { t with tokens := rest, pos := sp.end_ }
    else
      some ((sp, tok), { t with tokens := rest, pos := sp.end_ })
termination_by t.tokens.length
decreasing_by simp [h]

/-- Modelled from the spec: the uniform "expected ..., found ..." error
formatter; with no actual token it reports `eof` at the end-of-input
marker span. -/
def Tokenizer.format_expected_error (t : Tokenizer) (expected : String)
    (found : Option (Span × Token)) : Span × String :=
  match found with
  | some (sp, tok) => (sp, "expected " ++ expected ++ ", found " ++ tok.describe)
  | none => (t.eof, "expected " ++ expected ++ ", found eof")

/-- Modelled from the spec: consume the next filtered token and require it
to be `expected`, returning its span; otherwise fail with the formatted
"expected ..., found ..." error. -/
def Tokenizer.expect (t : Tokenizer) (expected : Token) :
    Except Error (Span × Tokenizer) :=
  match t.next with
  | some ((sp, tok), t') =>
    if tok = expected then .ok (sp, t')
    else
      let e := t.format_expected_error expected.describe (some (sp, tok))
      .error ⟨e.1, e.2⟩
  | none =>
    let e := t.format_expected_error expected.describe none
    .error ⟨e.1, e.2⟩

/-- Ordered doc comments collected in front of a declaration
(`profile.rs`, `struct Docs`). -/
structure Docs where
  docs : List String
  deriving DecidableEq, Repr

/-- Translation of `Docs::parse` from `profile.rs`: repeatedly read raw tokens through a
cloned cursor; whitespace is skipped (but the clone is still committed),
a comment's verbatim text is recorded (and committed), and the first other
token stops the loop without being consumed.  The Rust loop advances a
`clone` by `next_raw` and commits it (`*tokens = clone.clone()`) after
every whitespace or comment token; returning the current state at the stop
token renders exactly that. -/
def Docs.parse (t : Tokenizer) : Docs × Tokenizer :=
  match h : t.next_raw with
  | some ((span, Token.Whitespace), clone) =>
    let _ := span
    Docs.parse clone
  | some ((span, Token.Comment), clone) =>
    let r := Docs.parse clone
    (⟨t.get_span span :: r.1.docs⟩, r.2)
  | _ => (⟨[]⟩, t)
termination_by t.tokens.length
decreasing_by
  all_goals
    unfold Tokenizer.next_raw at h
    split at h
    next => simp at h
    next x rest heq =>
      simp only [Option.some.injEq, Prod.mk.injEq] at h
      rw [heq, ← h.2]
      simp

/-- An identifier value (`profile.rs`, `struct Id`): a name (verbatim
source slice for a bare identifier, decoded text for a string literal)
plus its span. -/
structure Id where
  name : String
  span : Span
  deriving DecidableEq, Repr

/-- Translation of `Id::parse` from `profile.rs`: consume one filtered token; a bare
identifier yields its verbatim slice, a string literal its decoded text,
anything else (or end of input) the "an identifier or string" error. -/
def Id.parse (tokens : Tokenizer) : Except Error (Id × Tokenizer) :=
  match tokens.next with
  | some ((span, Token.Id), t') => .ok (⟨tokens.get_span span, span⟩, t')
  | some ((span, Token.StrLit), t') => .ok (⟨tokens.parse_str span, span⟩, t')
  | other =>
    let e := tokens.format_expected_error "an identifier or string"
      (other.map (fun x => x.1))
    .error ⟨e.1, e.2⟩

/-- Translation of `struct Extend` from `profile.rs`: span plus the extended profile's
identifier; no docs. -/
structure Extend where
  span : Span
  profile : Id
  deriving DecidableEq, Repr

/-- Translation of `Extend::parse` from `profile.rs`. -/
def Extend.parse (tokens : Tokenizer) : Except Error (Extend × Tokenizer) := do
  let (span, t1) ← tokens.expect Token.Extend
  let (profile, t2) ← Id.parse t1
  .ok (⟨⟨span.start, profile.span.end_⟩, profile⟩, t2)

/-- Translation of `struct Provide` from `profile.rs`. -/
structure Provide where
  docs : Docs
  span : Span
  interface : Id
  deriving DecidableEq, Repr

/-- Translation of `Provide::parse` from `profile.rs`. -/
def Provide.parse (tokens : Tokenizer) (docs : Docs) :
    Except Error (Provide × Tokenizer) := do
  let (span, t1) ← tokens.expect Token.Provide
  let (interface, t2) ← Id.parse t1
  .ok (⟨docs, ⟨span.start, interface.span.end_⟩, interface⟩, t2)

/-- Translation of `struct Require` from `profile.rs`. -/
structure Require where
  docs : Docs
  span : Span
  interface : Id
  deriving DecidableEq, Repr

/-- Translation of `Require::parse` from `profile.rs`. -/
def Require.parse (tokens : Tokenizer) (docs : Docs) :
    Except Error (Require × Tokenizer) := do
  let (span, t1) ← tokens.expect Token.Require
  let (interface, t2) ← Id.parse t1
  .ok (⟨docs, ⟨span.start, interface.span.end_⟩, interface⟩, t2)

/-- Translation of `struct Implement` from `profile.rs`: both operands are decoded
string literals. -/
structure Implement where
  docs : Docs
  span : Span
  interface : String
  component : String
  deriving DecidableEq, Repr

/-- Translation of `Implement::parse` from `profile.rs`: keyword, string literal, `with`,
string literal; the span ends at the second literal's end and both
literals are decoded with `parse_str`. -/
def Implement.parse (tokens : Tokenizer) (docs : Docs) :
    Except Error (Implement × Tokenizer) := do
  let (span, t1) ← tokens.expect Token.Implement
  let (interface, t2) ← t1.expect Token.StrLit
  let (_w, t3) ← t2.expect Token.With
  let (component, t4) ← t3.expect Token.StrLit
  .ok (⟨docs, ⟨span.start, component.end_⟩,
        t4.parse_str interface, t4.parse_str component⟩, t4)

/-- Translation of `enum Item` from `profile.rs`: the four declaration kinds. -/
inductive Item where
  | Extend (e : Extend)
  | Provide (p : Provide)
  | Require (r : Require)
  | Implement (i : Implement)
  deriving DecidableEq, Repr

/-- Translation of `Item::parse` from `profile.rs`: peek the next filtered token through a
clone (the committed cursor is untouched) and dispatch on the keyword; any
other token, or end of input, yields the error naming all four keywords. -/
def Item.parse (tokens : Tokenizer) (docs : Docs) :
    Except Error (Item × Tokenizer) :=
  match tokens.next with
  | some ((_sp, Token.Extend), _) =>
    (Extend.parse tokens).map (fun x => (Item.Extend x.1, x.2))
  | some ((_sp, Token.Provide), _) =>
    (Provide.parse tokens docs).map (fun x => (Item.Provide x.1, x.2))
  | some ((_sp, Token.Require), _) =>
    (Require.parse tokens docs).map (fun x => (Item.Require x.1, x.2))
  | some ((_sp, Token.Implement), _) =>
    (Implement.parse tokens docs).map (fun x => (Item.Implement x.1, x.2))
  | other =>
    let e := tokens.format_expected_error
      "`extend`, `provide`, `require`, or `implement`" (other.map (fun x => x.1))
    .error ⟨e.1, e.2⟩

/-- Translation of `struct Ast` from `profile.rs`: the ordered declaration sequence. -/
structure Ast where
  items : List Item
  deriving DecidableEq, Repr

/-- The `while lexer.clone().next()?.is_some()` loop of `Ast::parse`,
written with explicit fuel: each successful iteration strictly shrinks the
token stream (its `Item::parse` consumes at least the keyword token), so
the fuel `t.tokens.length + 1` supplied by `Ast.parse` never runs out; the
out-of-fuel branch is unreachable there. -/
def Ast.parseItems (fuel : Nat) (t : Tokenizer) : Except Error (List Item) :=
  match fuel with
  | 0 => .ok []
  | fuel + 1 =>
    match t.next with
    | none => .ok []
    | some _ =>
      let d := Docs.parse t
      match Item.parse d.2 d.1 with
      | .error e => .error e
      | .ok (item, t2) => (Ast.parseItems fuel t2).map (fun items => item :: items)

/-- Translation of `Ast::parse` from `profile.rs`, starting from the tokenizer over the
input (tokenization itself is the spec-modelled part above). -/
def Ast.parse (t : Tokenizer) : Except Error Ast :=
  (Ast.parseItems (t.tokens.length + 1) t).map Ast.mk

/-- A token skipped by the filtered `next` and consumed by the doc
collector: whitespace or comment. -/
def trivia (x : Span × Token) : Bool :=
  x.2 = Token.Whitespace ∨ x.2 = Token.Comment

/-- The committed cursor position after consuming a run of raw tokens:
the end of the last one, or the starting position for an empty run. -/
def lastEnd (pos : Nat) : List (Span × Token) → Nat
  | [] => pos
  | x :: rest => lastEnd x.1.end_ rest

/-- A well-formed token stream: spans are ordered left to right and each
span is non-degenerate. -/
def Ordered (t : Tokenizer) : Prop :=
  t.tokens.Pairwise (fun a b => a.1.end_ ≤ b.1.start) ∧
    ∀ x ∈ t.tokens, x.1.start ≤ x.1.end_

/-- The source span covered by a declaration, any kind. -/
def Item.span : Item → Span
  | .Extend e => e.span
  | .Provide p => p.span
  | .Require r => r.span
  | .Implement i => i.span

/-- Modelled from the spec (the refinement target for the Provide/Require
equivalence): the shared parsing shape — a leading keyword, one
identifier, the span running from the keyword's start to the identifier's
end, the docs attached verbatim. -/
def parseDocsKeywordId (kw : Token) (tokens : Tokenizer) (docs : Docs) :
    Except Error ((Docs × Span × Id) × Tokenizer) := do
  let (span, t1) ← tokens.expect kw
  let (interface, t2) ← Id.parse t1
  .ok ((docs, ⟨span.start, interface.span.end_⟩, interface), t2)

/-- A concrete tokenizer over a given token stream, for evaluating the
theorems: every verbatim slice reads `s` and every decoded string literal
reads `d`. -/
def mkTok (l : List (Span × Token)) : Tokenizer :=
  ⟨l, 0, ⟨99, 99⟩, fun x => "s", fun x => "d"⟩

theorem next_nil (pos : Nat) (e : Span) (g p : Span → String) :
    Tokenizer.next ⟨[], pos, e, g, p⟩ = none := by
  rw [Tokenizer.next]

theorem next_cons (sp : Span) (tok : Token) (rest : List (Span × Token))
    (pos : Nat) (e : Span) (g p : Span → String) :
    Tokenizer.next ⟨(sp, tok) :: rest, pos, e, g, p⟩ =
      if trivia (sp, tok) then Tokenizer.next ⟨rest, sp.end_, e, g, p⟩
      else some ((sp, tok), ⟨rest, sp.end_, e, g, p⟩) := by
  rw [Tokenizer.next]
  simp only [trivia]
  split <;> split <;> simp_all

/-- The filtered `next` drops the leading trivia run and consumes the
first significant token. -/
theorem next_spec (toks : List (Span × Token)) (pos : Nat) (e : Span)
    (g p : Span → String) :
    Tokenizer.next ⟨toks, pos, e, g, p⟩ = match toks.dropWhile trivia with
      | [] => none
      | (sp, tok) :: rest => some ((sp, tok), ⟨rest, sp.end_, e, g, p⟩) := by
  induction toks generalizing pos with
  | nil => simp [next_nil, List.dropWhile]
  | cons x rest ih =>
    obtain ⟨sp, tok⟩ := x
    rw [next_cons]
    by_cases h : trivia (sp, tok)
    · rw [if_pos h, ih, List.dropWhile_cons_of_pos h]
    · rw [if_neg h, List.dropWhile_cons_of_neg h]

theorem next_some_inv (t t' : Tokenizer) (sp : Span) (tok : Token)
    (h : t.next = some ((sp, tok), t')) :
    t.tokens.dropWhile trivia = (sp, tok) :: t'.tokens ∧
      t'.eof = t.eof ∧ t'.get_span = t.get_span ∧ t'.parse_str = t.parse_str ∧
      t'.pos = sp.end_ := by
  obtain ⟨toks, pos, e, g, p⟩ := t
  rw [next_spec] at h
  cases hd : toks.dropWhile trivia with
  | nil => rw [hd] at h; simp at h
  | cons x rest =>
    obtain ⟨sp2, tok2⟩ := x
    rw [hd] at h
    simp only [Option.some.injEq, Prod.mk.injEq] at h
    obtain ⟨⟨h1, h2⟩, h3⟩ := h
    subst h1; subst h2
    rw [← h3]
    simp

theorem next_none_inv (t : Tokenizer) (h : t.next = none) :
    t.tokens.dropWhile trivia = [] := by
  obtain ⟨toks, pos, e, g, p⟩ := t
  rw [next_spec] at h
  cases hd : toks.dropWhile trivia with
  | nil => rfl
  | cons x rest => obtain ⟨sp2, tok2⟩ := x; rw [hd] at h; simp at h

theorem next_ordered (t t' : Tokenizer) (sp : Span) (tok : Token)
    (h : t.next = some ((sp, tok), t')) (ho : Ordered t) :
    Ordered t' ∧ (∀ x ∈ t'.tokens, sp.end_ ≤ x.1.start) ∧ (sp, tok) ∈ t.tokens := by
  obtain ⟨hd, -, -, -, -⟩ := next_some_inv t t' sp tok h
  have hsuf : ((sp, tok) :: t'.tokens).IsSuffix t.tokens := by
    rw [← hd]; exact List.dropWhile_suffix trivia
  have hsub : List.Sublist ((sp, tok) :: t'.tokens) t.tokens := hsuf.sublist
  have hpw : ((sp, tok) :: t'.tokens).Pairwise (fun a b => a.1.end_ ≤ b.1.start) :=
    ho.1.sublist hsub
  refine ⟨⟨(List.pairwise_cons.mp hpw).2, ?_⟩, (List.pairwise_cons.mp hpw).1, ?_⟩
  · intro x hx
    exact ho.2 x (hsub.mem (List.mem_cons_of_mem _ hx))
  · exact hsub.mem (List.mem_cons_self _ _)

theorem expect_ok_inv (t t' : Tokenizer) (k : Token) (sp : Span)
    (h : t.expect k = .ok (sp, t')) : t.next = some ((sp, k), t') := by
  unfold Tokenizer.expect at h
  cases hn : t.next with
  | none => rw [hn] at h; simp at h
  | some v =>
    obtain ⟨⟨sp2, tok2⟩, t2⟩ := v
    rw [hn] at h
    dsimp only at h
    by_cases he : tok2 = k
    · rw [if_pos he] at h
      simp only [Except.ok.injEq, Prod.mk.injEq] at h
      subst he
      rw [h.1, h.2]
    · rw [if_neg he] at h; simp at h

theorem idparse_ok_inv (t t' : Tokenizer) (i : Id)
    (h : Id.parse t = .ok (i, t')) :
    ∃ tok, (tok = Token.Id ∨ tok = Token.StrLit) ∧
      t.next = some ((i.span, tok), t') := by
  unfold Id.parse at h
  cases hn : t.next with
  | none => rw [hn] at h; simp [Tokenizer.format_expected_error] at h
  | some v =>
    obtain ⟨⟨sp2, tok2⟩, t2⟩ := v
    rw [hn] at h
    cases tok2 <;> dsimp only at h
    case Id =>
      simp only [Except.ok.injEq, Prod.mk.injEq] at h
      obtain ⟨h1, h2⟩ := h
      subst h1; subst h2
      exact ⟨Token.Id, Or.inl rfl, rfl⟩
    case StrLit =>
      simp only [Except.ok.injEq, Prod.mk.injEq] at h
      obtain ⟨h1, h2⟩ := h
      subst h1; subst h2
      exact ⟨Token.StrLit, Or.inr rfl, rfl⟩
    all_goals simp [Tokenizer.format_expected_error] at h

theorem extend_ok_inv (t t' : Tokenizer) (x : Extend)
    (h : Extend.parse t = .ok (x, t')) :
    ∃ ksp t1 t2, t.expect Token.Extend = .ok (ksp, t1) ∧
      Id.parse t1 = .ok (x.profile, t2) ∧
      x.span = ⟨ksp.start, x.profile.span.end_⟩ ∧ t' = t2 := by
  unfold Extend.parse at h
  simp only [bind, Except.bind] at h
  cases h1 : t.expect Token.Extend with
  | error e => rw [h1] at h; dsimp only at h; simp at h
  | ok v =>
    obtain ⟨ksp, t1⟩ := v
    rw [h1] at h
    dsimp only at h
    cases h2 : Id.parse t1 with
    | error e => rw [h2] at h; dsimp only at h; simp at h
    | ok w =>
      obtain ⟨pid, t2⟩ := w
      rw [h2] at h
      dsimp only at h
      simp only [Except.ok.injEq, Prod.mk.injEq] at h
      obtain ⟨hx, ht⟩ := h
      subst hx; subst ht
      exact ⟨ksp, t1, t2, rfl, h2, rfl, rfl⟩

theorem provide_ok_inv (t t' : Tokenizer) (d : Docs) (x : Provide)
    (h : Provide.parse t d = .ok (x, t')) :
    ∃ ksp t1 t2, t.expect Token.Provide = .ok (ksp, t1) ∧
      Id.parse t1 = .ok (x.interface, t2) ∧ x.docs = d ∧
      x.span = ⟨ksp.start, x.interface.span.end_⟩ ∧ t' = t2 := by
  unfold Provide.parse at h
  simp only [bind, Except.bind] at h
  cases h1 : t.expect Token.Provide with
  | error e => rw [h1] at h; dsimp only at h; simp at h
  | ok v =>
    obtain ⟨ksp, t1⟩ := v
    rw [h1] at h
    dsimp only at h
    cases h2 : Id.parse t1 with
    | error e => rw [h2] at h; dsimp only at h; simp at h
    | ok w =>
      obtain ⟨iid, t2⟩ := w
      rw [h2] at h
      dsimp only at h
      simp only [Except.ok.injEq, Prod.mk.injEq] at h
      obtain ⟨hx, ht⟩ := h
      subst hx; subst ht
      exact ⟨ksp, t1, t2, rfl, h2, rfl, rfl, rfl⟩

theorem require_ok_inv (t t' : Tokenizer) (d : Docs) (x : Require)
    (h : Require.parse t d = .ok (x, t')) :
    ∃ ksp t1 t2, t.expect Token.Require = .ok (ksp, t1) ∧
      Id.parse t1 = .ok (x.interface, t2) ∧ x.docs = d ∧
      x.span = ⟨ksp.start, x.interface.span.end_⟩ ∧ t' = t2 := by
  unfold Require.parse at h
  simp only [bind, Except.bind] at h
  cases h1 : t.expect Token.Require with
  | error e => rw [h1] at h; dsimp only at h; simp at h
  | ok v =>
    obtain ⟨ksp, t1⟩ := v
    rw [h1] at h
    dsimp only at h
    cases h2 : Id.parse t1 with
    | error e => rw [h2] at h; dsimp only at h; simp at h
    | ok w =>
      obtain ⟨iid, t2⟩ := w
      rw [h2] at h
      dsimp only at h
      simp only [Except.ok.injEq, Prod.mk.injEq] at h
      obtain ⟨hx, ht⟩ := h
      subst hx; subst ht
      exact ⟨ksp, t1, t2, rfl, h2, rfl, rfl, rfl⟩

theorem implement_ok_inv (t t' : Tokenizer) (d : Docs) (x : Implement)
    (h : Implement.parse t d = .ok (x, t')) :
    ∃ ksp t1 isp t2 wsp t3 csp t4,
      t.expect Token.Implement = .ok (ksp, t1) ∧
      t1.expect Token.StrLit = .ok (isp, t2) ∧
      t2.expect Token.With = .ok (wsp, t3) ∧
      t3.expect Token.StrLit = .ok (csp, t4) ∧
      x = ⟨d, ⟨ksp.start, csp.end_⟩, t4.parse_str isp, t4.parse_str csp⟩ ∧
      t' = t4 := by
  unfold Implement.parse at h
  simp only [bind, Except.bind] at h
  cases h1 : t.expect Token.Implement with
  | error e => rw [h1] at h; dsimp only at h; simp at h
  | ok v =>
    obtain ⟨ksp, t1⟩ := v
    rw [h1] at h
    dsimp only at h
    cases h2 : t1.expect Token.StrLit with
    | error e => rw [h2] at h; dsimp only at h; simp at h
    | ok w =>
      obtain ⟨isp, t2⟩ := w
      rw [h2] at h
      dsimp only at h
      cases h3 : t2.expect Token.With with
      | error e => rw [h3] at h; dsimp only at h; simp at h
      | ok u =>
        obtain ⟨wsp, t3⟩ := u
        rw [h3] at h
        dsimp only at h
        cases h4 : t3.expect Token.StrLit with
        | error e => rw [h4] at h; dsimp only at h; simp at h
        | ok z =>
          obtain ⟨csp, t4⟩ := z
          rw [h4] at h
          dsimp only at h
          simp only [Except.ok.injEq, Prod.mk.injEq] at h
          obtain ⟨hx, ht⟩ := h
          subst hx; subst ht
          exact ⟨ksp, t1, isp, t2, wsp, t3, csp, t4, rfl, h2, h3, h4, rfl, rfl⟩

theorem docs_parse_nil (pos : Nat) (e : Span) (g p : Span → String) :
    Docs.parse ⟨[], pos, e, g, p⟩ = (⟨[]⟩, ⟨[], pos, e, g, p⟩) := by
  rw [Docs.parse]
  simp [Tokenizer.next_raw]

theorem docs_parse_ws (sp : Span) (rest : List (Span × Token)) (pos : Nat)
    (e : Span) (g p : Span → String) :
    Docs.parse ⟨(sp, Token.Whitespace) :: rest, pos, e, g, p⟩ =
      Docs.parse ⟨rest, sp.end_, e, g, p⟩ := by
  rw [Docs.parse]
  simp [Tokenizer.next_raw]

theorem docs_parse_comment (sp : Span) (rest : List (Span × Token)) (pos : Nat)
    (e : Span) (g p : Span → String) :
    Docs.parse ⟨(sp, Token.Comment) :: rest, pos, e, g, p⟩ =
      (⟨g sp :: (Docs.parse ⟨rest, sp.end_, e, g, p⟩).1.docs⟩,
        (Docs.parse ⟨rest, sp.end_, e, g, p⟩).2) := by
  rw [Docs.parse]
  simp [Tokenizer.next_raw]

theorem docs_parse_stop (sp : Span) (tok : Token) (rest : List (Span × Token))
    (pos : Nat) (e : Span) (g p : Span → String)
    (h1 : tok ≠ Token.Whitespace) (h2 : tok ≠ Token.Comment) :
    Docs.parse ⟨(sp, tok) :: rest, pos, e, g, p⟩ =
      (⟨[]⟩, ⟨(sp, tok) :: rest, pos, e, g, p⟩) := by
  rw [Docs.parse]
  cases tok <;> simp_all [Tokenizer.next_raw]

/-- Full characterization of the doc collector: the recorded texts are the
comments of the maximal leading trivia run, the surviving token stream is
what follows that run, and the committed position is the end of the last
trivia token consumed (the starting position when none was). -/
theorem docs_parse_spec (toks : List (Span × Token)) (pos : Nat) (e : Span)
    (g p : Span → String) :
    Docs.parse ⟨toks, pos, e, g, p⟩ =
      (⟨((toks.takeWhile trivia).filter (fun x => x.2 = Token.Comment)).map
          (fun x => g x.1)⟩,
        ⟨toks.dropWhile trivia, lastEnd pos (toks.takeWhile trivia), e, g, p⟩) := by
  induction toks generalizing pos with
  | nil => simp [docs_parse_nil, List.dropWhile, List.takeWhile, lastEnd]
  | cons x rest ih =>
    obtain ⟨sp, tok⟩ := x
    by_cases h : trivia (sp, tok)
    · rw [List.takeWhile_cons_of_pos h, List.dropWhile_cons_of_pos h]
      have h' := h
      simp only [trivia, decide_eq_true_eq, Prod.snd] at h'
      rcases h' with h' | h'
      · subst h'
        rw [docs_parse_ws, ih]
        simp [lastEnd]
      · subst h'
        rw [docs_parse_comment, ih]
        simp [lastEnd]
    · have h' := h
      simp only [trivia, decide_eq_true_eq, Prod.snd, not_or] at h'
      rw [List.takeWhile_cons_of_neg h, List.dropWhile_cons_of_neg h]
      rw [docs_parse_stop sp tok rest pos e g p h'.1 h'.2]
      simp [lastEnd]

theorem docs_parse_state (t : Tokenizer) :
    (Docs.parse t).2.tokens = t.tokens.dropWhile trivia ∧
      (Docs.parse t).2.eof = t.eof ∧ (Docs.parse t).2.get_span = t.get_span ∧
      (Docs.parse t).2.parse_str = t.parse_str := by
  obtain ⟨toks, pos, e, g, p⟩ := t
  rw [docs_parse_spec]
  simp

theorem next_sublist (t t' : Tokenizer) (sp : Span) (tok : Token)
    (h : t.next = some ((sp, tok), t')) : List.Sublist t'.tokens t.tokens := by
  obtain ⟨hd, -, -, -, -⟩ := next_some_inv t t' sp tok h
  have hsuf : ((sp, tok) :: t'.tokens).IsSuffix t.tokens := by
    rw [← hd]; exact List.dropWhile_suffix trivia
  exact (List.sublist_cons_self _ _).trans hsuf.sublist

theorem expect_ordered (t t' : Tokenizer) (k : Token) (sp : Span)
    (ho : Ordered t) (h : t.expect k = .ok (sp, t')) :
    Ordered t' ∧ (∀ x ∈ t'.tokens, sp.end_ ≤ x.1.start) ∧ (sp, k) ∈ t.tokens ∧
      List.Sublist t'.tokens t.tokens := by
  have hn := expect_ok_inv t t' k sp h
  have h1 := next_ordered t t' sp k hn ho
  exact ⟨h1.1, h1.2.1, h1.2.2, next_sublist t t' sp k hn⟩

theorem idparse_ordered (t t' : Tokenizer) (i : Id)
    (ho : Ordered t) (h : Id.parse t = .ok (i, t')) :
    Ordered t' ∧ (∀ x ∈ t'.tokens, i.span.end_ ≤ x.1.start) ∧
      List.Sublist t'.tokens t.tokens := by
  obtain ⟨tok, -, hn⟩ := idparse_ok_inv t t' i h
  have h1 := next_ordered t t' i.span tok hn ho
  exact ⟨h1.1, h1.2.1, next_sublist t t' i.span tok hn⟩

theorem item_parse_ordered (t t' : Tokenizer) (d : Docs) (it : Item)
    (ho : Ordered t) (h : Item.parse t d = .ok (it, t')) :
    Ordered t' ∧ (∀ x ∈ t'.tokens, it.span.end_ ≤ x.1.start) ∧
      (∀ n, (∀ x ∈ t.tokens, n ≤ x.1.start) → n ≤ it.span.start) ∧
      List.Sublist t'.tokens t.tokens := by
  unfold Item.parse at h
  cases hn : t.next with
  | none => rw [hn] at h; simp [Tokenizer.format_expected_error] at h
  | some v =>
    obtain ⟨⟨sp0, tok0⟩, tp⟩ := v
    rw [hn] at h
    cases tok0 <;> dsimp only at h
    case Whitespace | Comment | Id | StrLit | With =>
      simp [Tokenizer.format_expected_error] at h
    case Extend =>
      cases hp : Extend.parse t with
      | error e => rw [hp] at h; simp [Except.map] at h
      | ok w =>
        obtain ⟨x, t2⟩ := w
        rw [hp] at h
        simp only [Except.map, Except.ok.injEq, Prod.mk.injEq] at h
        obtain ⟨hit, ht⟩ := h
        subst hit; subst ht
        obtain ⟨ksp, t1, t2', he, hid, hsp, hteq⟩ := extend_ok_inv t t2 x hp
        subst hteq
        have o1 := expect_ordered t t1 Token.Extend ksp ho he
        have o2 := idparse_ordered t1 t2 x.profile o1.1 hid
        refine ⟨o2.1, ?_, ?_, o2.2.2.trans o1.2.2.2⟩
        · intro y hy
          simp only [Item.span, hsp]
          exact o2.2.1 y hy
        · intro n hlow
          simp only [Item.span, hsp]
          exact hlow (ksp, Token.Extend) o1.2.2.1
    case Provide =>
      cases hp : Provide.parse t d with
      | error e => rw [hp] at h; simp [Except.map] at h
      | ok w =>
        obtain ⟨x, t2⟩ := w
        rw [hp] at h
        simp only [Except.map, Except.ok.injEq, Prod.mk.injEq] at h
        obtain ⟨hit, ht⟩ := h
        subst hit; subst ht
        obtain ⟨ksp, t1, t2', he, hid, -, hsp, hteq⟩ := provide_ok_inv t t2 d x hp
        subst hteq
        have o1 := expect_ordered t t1 Token.Provide ksp ho he
        have o2 := idparse_ordered t1 t2 x.interface o1.1 hid
        refine ⟨o2.1, ?_, ?_, o2.2.2.trans o1.2.2.2⟩
        · intro y hy
          simp only [Item.span, hsp]
          exact o2.2.1 y hy
        · intro n hlow
          simp only [Item.span, hsp]
          exact hlow (ksp, Token.Provide) o1.2.2.1
    case Require =>
      cases hp : Require.parse t d with
      | error e => rw [hp] at h; simp [Except.map] at h
      | ok w =>
        obtain ⟨x, t2⟩ := w
        rw [hp] at h
        simp only [Except.map, Except.ok.injEq, Prod.mk.injEq] at h
        obtain ⟨hit, ht⟩ := h
        subst hit; subst ht
        obtain ⟨ksp, t1, t2', he, hid, -, hsp, hteq⟩ := require_ok_inv t t2 d x hp
        subst hteq
        have o1 := expect_ordered t t1 Token.Require ksp ho he
        have o2 := idparse_ordered t1 t2 x.interface o1.1 hid
        refine ⟨o2.1, ?_, ?_, o2.2.2.trans o1.2.2.2⟩
        · intro y hy
          simp only [Item.span, hsp]
          exact o2.2.1 y hy
        · intro n hlow
          simp only [Item.span, hsp]
          exact hlow (ksp, Token.Require) o1.2.2.1
    case Implement =>
      cases hp : Implement.parse t d with
      | error e => rw [hp] at h; simp [Except.map] at h
      | ok w =>
        obtain ⟨x, t2⟩ := w
        rw [hp] at h
        simp only [Except.map, Except.ok.injEq, Prod.mk.injEq] at h
        obtain ⟨hit, ht⟩ := h
        subst hit; subst ht
        obtain ⟨ksp, t1, isp, t2', wsp, t3, csp, t4, h1, h2, h3, h4, hx, hteq⟩ :=
          implement_ok_inv t t2 d x hp
        subst hteq
        have o1 := expect_ordered t t1 Token.Implement ksp ho h1
        have o2 := expect_ordered t1 t2' Token.StrLit isp o1.1 h2
        have o3 := expect_ordered t2' t3 Token.With wsp o2.1 h3
        have o4 := expect_ordered t3 t2 Token.StrLit csp o3.1 h4
        refine ⟨o4.1, ?_, ?_,
          ((o4.2.2.2.trans o3.2.2.2).trans o2.2.2.2).trans o1.2.2.2⟩
        · intro y hy
          simp only [Item.span, hx]
          exact o4.2.1 y hy
        · intro n hlow
          simp only [Item.span, hx]
          exact hlow (ksp, Token.Implement) o1.2.2.1

theorem docs_parse_ordered (t : Tokenizer) (ho : Ordered t) :
    Ordered (Docs.parse t).2 ∧
      List.Sublist ((Docs.parse t).2.tokens) t.tokens := by
  have hst := (docs_parse_state t).1
  have hsub : List.Sublist ((Docs.parse t).2.tokens) t.tokens := by
    rw [hst]; exact (List.dropWhile_suffix trivia).sublist
  exact ⟨⟨ho.1.sublist hsub, fun x hx => ho.2 x (hsub.mem hx)⟩, hsub⟩

/-- The driver loop keeps declarations in consumption order: under an
ordered token stream every produced item's span ends before the next
item's span starts. -/
theorem parse_items_ordered (fuel : Nat) :
    ∀ t items, Ordered t → Ast.parseItems fuel t = .ok items →
      (items.map Item.span).Pairwise (fun a b => a.end_ ≤ b.start) ∧
      (∀ n, (∀ x ∈ t.tokens, n ≤ x.1.start) → ∀ s ∈ items.map Item.span, n ≤ s.start) := by
  induction fuel with
  | zero =>
    intro t items ho h
    unfold Ast.parseItems at h
    simp only [Except.ok.injEq] at h
    subst h
    simp
  | succ fuel ih =>
    intro t items ho h
    unfold Ast.parseItems at h
    cases hn : t.next with
    | none =>
      rw [hn] at h
      dsimp only at h
      simp only [Except.ok.injEq] at h
      subst h
      simp
    | some v =>
      rw [hn] at h
      dsimp only at h
      cases hi : Item.parse (Docs.parse t).2 (Docs.parse t).1 with
      | error e => rw [hi] at h; simp at h
      | ok w =>
        obtain ⟨item, t2⟩ := w
        rw [hi] at h
        dsimp only at h
        cases hrec : Ast.parseItems fuel t2 with
        | error e => rw [hrec] at h; simp [Except.map] at h
        | ok rest =>
          rw [hrec] at h
          simp only [Except.map, Except.ok.injEq] at h
          subst h
          have od := docs_parse_ordered t ho
          have oi := item_parse_ordered (Docs.parse t).2 t2 (Docs.parse t).1
            item od.1 hi
          have ihr := ih t2 rest oi.1 hrec
          constructor
          · simp only [List.map_cons]
            refine List.pairwise_cons.mpr ⟨?_, ihr.1⟩
            intro b hb
            exact ihr.2 item.span.end_ oi.2.1 b hb
          · intro n hlow s hs
            simp only [List.map_cons, List.mem_cons] at hs
            rcases hs with hs | hs
            · subst hs
              exact oi.2.2.1 n (fun x hx => hlow x (od.2.mem hx))
            · exact ihr.2 n
                (fun x hx => hlow x ((oi.2.2.2.trans od.2).mem hx)) s hs

theorem expect_next_eq (t t' : Tokenizer) (sp : Span) (k : Token)
    (h : t.next = some ((sp, k), t')) : t.expect k = .ok (sp, t') := by
  unfold Tokenizer.expect
  rw [h]
  dsimp only
  rw [if_pos rfl]

theorem expect_next_ne (t t' : Tokenizer) (sp : Span) (tok k : Token)
    (h : t.next = some ((sp, tok), t')) (hne : tok ≠ k) :
    t.expect k = .error ⟨sp, "expected " ++ k.describe ++ ", found " ++ tok.describe⟩ := by
  unfold Tokenizer.expect
  rw [h]
  dsimp only
  rw [if_neg hne]
  rfl

theorem expect_next_none (t : Tokenizer) (k : Token) (h : t.next = none) :
    t.expect k = .error ⟨t.eof, "expected " ++ k.describe ++ ", found eof"⟩ := by
  unfold Tokenizer.expect
  rw [h]
  rfl

/-- Claim C5: `Id::parse` consumes exactly one filtered token; a bare
identifier yields the verbatim source slice of its span, a string literal
the escape-decoded text, and any other token (or end of input) a
`ParseError` expecting "an identifier or string" with the span of the
actual token or the end-of-input marker span. -/
theorem claim_C5 :
    (∀ t t' sp, t.next = some ((sp, Token.Id), t') →
      Id.parse t = .ok (⟨t.get_span sp, sp⟩, t')) ∧
    (∀ t t' sp, t.next = some ((sp, Token.StrLit), t') →
      Id.parse t = .ok (⟨t.parse_str sp, sp⟩, t')) ∧
    (∀ t t' sp tok, t.next = some ((sp, tok), t') → tok ≠ Token.Id →
      tok ≠ Token.StrLit →
      Id.parse t = .error ⟨sp, "expected an identifier or string, found " ++
        tok.describe⟩) ∧
    (∀ t, t.next = none →
      Id.parse t = .error ⟨t.eof, "expected an identifier or string, found eof"⟩) := by
  refine ⟨?_, ?_, ?_, ?_⟩
  · intro t t' sp h
    unfold Id.parse
    rw [h]
  · intro t t' sp h
    unfold Id.parse
    rw [h]
  · intro t t' sp tok h h1 h2
    unfold Id.parse
    rw [h]
    cases tok <;> simp_all [Tokenizer.format_expected_error]
  · intro t h
    unfold Id.parse
    rw [h]
    rfl

/-- Witness for claim C5 at concrete one-token inputs: a bare identifier,
a string literal, a misplaced `with` keyword, and an exhausted stream. -/
theorem claim_C5_witness :
    (Id.parse (mkTok [(⟨0, 3⟩, Token.Id)]) =
      .ok (⟨(mkTok [(⟨0, 3⟩, Token.Id)]).get_span ⟨0, 3⟩, ⟨0, 3⟩⟩,
        ⟨[], 3, ⟨99, 99⟩, fun x => "s", fun x => "d"⟩)) ∧
    (Id.parse (mkTok [(⟨0, 3⟩, Token.StrLit)]) =
      .ok (⟨(mkTok [(⟨0, 3⟩, Token.StrLit)]).parse_str ⟨0, 3⟩, ⟨0, 3⟩⟩,
        ⟨[], 3, ⟨99, 99⟩, fun x => "s", fun x => "d"⟩)) ∧
    (Id.parse (mkTok [(⟨0, 4⟩, Token.With)]) =
      .error ⟨⟨0, 4⟩, "expected an identifier or string, found " ++
        Token.With.describe⟩) ∧
    (Id.parse (mkTok []) =
      .error ⟨(mkTok []).eof, "expected an identifier or string, found eof"⟩) :=
  ⟨claim_C5.1 (mkTok [(⟨0, 3⟩, Token.Id)]) ⟨[], 3, ⟨99, 99⟩, fun x => "s", fun x => "d"⟩
      ⟨0, 3⟩ (by unfold mkTok; rw [next_spec]; rfl),
    claim_C5.2.1 (mkTok [(⟨0, 3⟩, Token.StrLit)])
      ⟨[], 3, ⟨99, 99⟩, fun x => "s", fun x => "d"⟩ ⟨0, 3⟩
      (by unfold mkTok; rw [next_spec]; rfl),
    claim_C5.2.2.1 (mkTok [(⟨0, 4⟩, Token.With)])
      ⟨[], 4, ⟨99, 99⟩, fun x => "s", fun x => "d"⟩ ⟨0, 4⟩ Token.With
      (by unfold mkTok; rw [next_spec]; rfl) (by simp) (by simp),
    claim_C5.2.2.2 (mkTok []) (by unfold mkTok; rw [next_spec]; rfl)⟩

/-- Claim C2: `Implement::parse` rejects a non-string-literal token in
either operand position with a `ParseError` at that token's span (or the
end-of-input marker) whose message expects a string, while `provide`,
`require` and `extend` accept a bare identifier in the analogous
position. -/
theorem claim_C2 :
    (∀ t t1 d ksp sp tok t2, t.next = some ((ksp, Token.Implement), t1) →
      t1.next = some ((sp, tok), t2) → tok ≠ Token.StrLit →
      Implement.parse t d = .error ⟨sp, "expected " ++ Token.StrLit.describe ++
        ", found " ++ tok.describe⟩) ∧
    (∀ t t1 d ksp, t.next = some ((ksp, Token.Implement), t1) → t1.next = none →
      Implement.parse t d = .error ⟨t1.eof, "expected " ++ Token.StrLit.describe ++
        ", found eof"⟩) ∧
    (∀ t t1 d ksp isp t2 wsp t3 sp tok t4,
      t.next = some ((ksp, Token.Implement), t1) →
      t1.next = some ((isp, Token.StrLit), t2) →
      t2.next = some ((wsp, Token.With), t3) →
      t3.next = some ((sp, tok), t4) → tok ≠ Token.StrLit →
      Implement.parse t d = .error ⟨sp, "expected " ++ Token.StrLit.describe ++
        ", found " ++ tok.describe⟩) ∧
    (∀ t t1 d ksp isp t2 wsp t3,
      t.next = some ((ksp, Token.Implement), t1) →
      t1.next = some ((isp, Token.StrLit), t2) →
      t2.next = some ((wsp, Token.With), t3) →
      t3.next = none →
      Implement.parse t d = .error ⟨t3.eof, "expected " ++ Token.StrLit.describe ++
        ", found eof"⟩) ∧
    (∀ t t1 d ksp isp t2, t.next = some ((ksp, Token.Provide), t1) →
      t1.next = some ((isp, Token.Id), t2) →
      Provide.parse t d =
        .ok (⟨d, ⟨ksp.start, isp.end_⟩, ⟨t1.get_span isp, isp⟩⟩, t2)) ∧
    (∀ t t1 d ksp isp t2, t.next = some ((ksp, Token.Require), t1) →
      t1.next = some ((isp, Token.Id), t2) →
      Require.parse t d =
        .ok (⟨d, ⟨ksp.start, isp.end_⟩, ⟨t1.get_span isp, isp⟩⟩, t2)) ∧
    (∀ t t1 ksp isp t2, t.next = some ((ksp, Token.Extend), t1) →
      t1.next = some ((isp, Token.Id), t2) →
      Extend.parse t = .ok (⟨⟨ksp.start, isp.end_⟩, ⟨t1.get_span isp, isp⟩⟩, t2)) := by
  refine ⟨?_, ?_, ?_, ?_, ?_, ?_, ?_⟩
  · intro t t1 d ksp sp tok t2 h1 h2 hne
    unfold Implement.parse
    simp only [bind, Except.bind]
    rw [expect_next_eq t t1 ksp Token.Implement h1]
    dsimp only
    rw [expect_next_ne t1 t2 sp tok Token.StrLit h2 hne]
  · intro t t1 d ksp h1 h2
    unfold Implement.parse
    simp only [bind, Except.bind]
    rw [expect_next_eq t t1 ksp Token.Implement h1]
    dsimp only
    rw [expect_next_none t1 Token.StrLit h2]
  · intro t t1 d ksp isp t2 wsp t3 sp tok t4 h1 h2 h3 h4 hne
    unfold Implement.parse
    simp only [bind, Except.bind]
    rw [expect_next_eq t t1 ksp Token.Implement h1]
    dsimp only
    rw [expect_next_eq t1 t2 isp Token.StrLit h2]
    dsimp only
    rw [expect_next_eq t2 t3 wsp Token.With h3]
    dsimp only
    rw [expect_next_ne t3 t4 sp tok Token.StrLit h4 hne]
  · intro t t1 d ksp isp t2 wsp t3 h1 h2 h3 h4
    unfold Implement.parse
    simp only [bind, Except.bind]
    rw [expect_next_eq t t1 ksp Token.Implement h1]
    dsimp only
    rw [expect_next_eq t1 t2 isp Token.StrLit h2]
    dsimp only
    rw [expect_next_eq t2 t3 wsp Token.With h3]
    dsimp only
    rw [expect_next_none t3 Token.StrLit h4]
  · intro t t1 d ksp isp t2 h1 h2
    unfold Provide.parse
    simp only [bind, Except.bind]
    rw [expect_next_eq t t1 ksp Token.Provide h1]
    dsimp only
    unfold Id.parse
    rw [h2]
  · intro t t1 d ksp isp t2 h1 h2
    unfold Require.parse
    simp only [bind, Except.bind]
    rw [expect_next_eq t t1 ksp Token.Require h1]
    dsimp only
    unfold Id.parse
    rw [h2]
  · intro t t1 ksp isp t2 h1 h2
    unfold Extend.parse
    simp only [bind, Except.bind]
    rw [expect_next_eq t t1 ksp Token.Extend h1]
    dsimp only
    unfold Id.parse
    rw [h2]

/-- Witness for claim C2: `implement` with a bare identifier in the first
operand position fails at that identifier's span expecting a string, and
`provide` accepts a bare identifier there. -/
theorem claim_C2_witness :
    (Implement.parse (mkTok [(⟨0, 9⟩, Token.Implement), (⟨10, 13⟩, Token.Id)])
        ⟨[]⟩ =
      .error ⟨⟨10, 13⟩, "expected " ++ Token.StrLit.describe ++ ", found " ++
        Token.Id.describe⟩) ∧
    (Provide.parse (mkTok [(⟨0, 7⟩, Token.Provide), (⟨8, 11⟩, Token.Id)]) ⟨[]⟩ =
      .ok (⟨⟨[]⟩, ⟨0, 11⟩,
        ⟨(⟨[(⟨8, 11⟩, Token.Id)], 7, ⟨99, 99⟩, fun x => "s", fun x => "d"⟩ :
            Tokenizer).get_span ⟨8, 11⟩, ⟨8, 11⟩⟩⟩,
        ⟨[], 11, ⟨99, 99⟩, fun x => "s", fun x => "d"⟩)) :=
  ⟨claim_C2.1 (mkTok [(⟨0, 9⟩, Token.Implement), (⟨10, 13⟩, Token.Id)])
      ⟨[(⟨10, 13⟩, Token.Id)], 9, ⟨99, 99⟩, fun x => "s", fun x => "d"⟩ ⟨[]⟩
      ⟨0, 9⟩ ⟨10, 13⟩ Token.Id
      ⟨[], 13, ⟨99, 99⟩, fun x => "s", fun x => "d"⟩
      (by unfold mkTok; rw [next_spec]; rfl) (by rw [next_spec]; rfl) (by simp),
    claim_C2.2.2.2.2.1 (mkTok [(⟨0, 7⟩, Token.Provide), (⟨8, 11⟩, Token.Id)])
      ⟨[(⟨8, 11⟩, Token.Id)], 7, ⟨99, 99⟩, fun x => "s", fun x => "d"⟩ ⟨[]⟩
      ⟨0, 7⟩ ⟨8, 11⟩
      ⟨[], 11, ⟨99, 99⟩, fun x => "s", fun x => "d"⟩
      (by unfold mkTok; rw [next_spec]; rfl) (by rw [next_spec]; rfl)⟩

/-- Claim C4: every successfully parsed declaration's span starts at the
start of its leading keyword token and ends at the end of the last token
it consumed — the identifier's span end for `extend`, `provide` and
`require`, the second string literal's span end for `implement`. -/
theorem claim_C4 :
    (∀ t t' x, Extend.parse t = .ok (x, t') →
      ∃ ksp rest, t.next = some ((ksp, Token.Extend), rest) ∧
        x.span.start = ksp.start ∧ x.span.end_ = x.profile.span.end_) ∧
    (∀ t d t' x, Provide.parse t d = .ok (x, t') →
      ∃ ksp rest, t.next = some ((ksp, Token.Provide), rest) ∧
        x.span.start = ksp.start ∧ x.span.end_ = x.interface.span.end_) ∧
    (∀ t d t' x, Require.parse t d = .ok (x, t') →
      ∃ ksp rest, t.next = some ((ksp, Token.Require), rest) ∧
        x.span.start = ksp.start ∧ x.span.end_ = x.interface.span.end_) ∧
    (∀ t d t' x, Implement.parse t d = .ok (x, t') →
      ∃ ksp t1 isp t2 wsp t3 csp t4,
        t.next = some ((ksp, Token.Implement), t1) ∧
        t1.next = some ((isp, Token.StrLit), t2) ∧
        t2.next = some ((wsp, Token.With), t3) ∧
        t3.next = some ((csp, Token.StrLit), t4) ∧
        x.span.start = ksp.start ∧ x.span.end_ = csp.end_) := by
  refine ⟨?_, ?_, ?_, ?_⟩
  · intro t t' x h
    obtain ⟨ksp, t1, t2, he, hid, hsp, hteq⟩ := extend_ok_inv t t' x h
    exact ⟨ksp, t1, expect_ok_inv t t1 Token.Extend ksp he,
      by rw [hsp], by rw [hsp]⟩
  · intro t d t' x h
    obtain ⟨ksp, t1, t2, he, hid, hd, hsp, hteq⟩ := provide_ok_inv t t' d x h
    exact ⟨ksp, t1, expect_ok_inv t t1 Token.Provide ksp he,
      by rw [hsp], by rw [hsp]⟩
  · intro t d t' x h
    obtain ⟨ksp, t1, t2, he, hid, hd, hsp, hteq⟩ := require_ok_inv t t' d x h
    exact ⟨ksp, t1, expect_ok_inv t t1 Token.Require ksp he,
      by rw [hsp], by rw [hsp]⟩
  · intro t d t' x h
    obtain ⟨ksp, t1, isp, t2, wsp, t3, csp, t4, h1, h2, h3, h4, hx, hteq⟩ :=
      implement_ok_inv t t' d x h
    subst hx
    exact ⟨ksp, t1, isp, t2, wsp, t3, csp, t4,
      expect_ok_inv t t1 Token.Implement ksp h1,
      expect_ok_inv t1 t2 Token.StrLit isp h2,
      expect_ok_inv t2 t3 Token.With wsp h3,
      expect_ok_inv t3 t4 Token.StrLit csp h4, rfl, rfl⟩

/-- Witness for claim C4: a concrete `extend foo` parse whose span runs
from the keyword's start to the identifier's end. -/
theorem claim_C4_witness :
    ∃ ksp rest,
      (mkTok [(⟨0, 6⟩, Token.Extend), (⟨7, 10⟩, Token.Id)]).next =
        some ((ksp, Token.Extend), rest) ∧
      (Extend.mk ⟨0, 10⟩ ⟨"s", ⟨7, 10⟩⟩).span.start = ksp.start ∧
      (Extend.mk ⟨0, 10⟩ ⟨"s", ⟨7, 10⟩⟩).span.end_ =
        (Extend.mk ⟨0, 10⟩ ⟨"s", ⟨7, 10⟩⟩).profile.span.end_ :=
  claim_C4.1 (mkTok [(⟨0, 6⟩, Token.Extend), (⟨7, 10⟩, Token.Id)])
    ⟨[], 10, ⟨99, 99⟩, fun x => "s", fun x => "d"⟩
    (Extend.mk ⟨0, 10⟩ ⟨"s", ⟨7, 10⟩⟩)
    (by unfold mkTok
        simp [Extend.parse, Tokenizer.expect, Id.parse, next_spec, trivia,
          bind, Except.bind, List.dropWhile])

/-- Claim C6: when the driver's dispatch peeks a filtered token that is
none of the four declaration keywords (or hits end of input), the parse
fails with a `ParseError` naming all four keywords; the peek itself does
not consume, so the dispatched declaration parser runs on the same
tokenizer state and consumes the keyword itself. -/
theorem claim_C6 :
    (∀ t d sp tok t', t.next = some ((sp, tok), t') →
      tok ≠ Token.Extend → tok ≠ Token.Provide → tok ≠ Token.Require →
      tok ≠ Token.Implement →
      Item.parse t d = .error ⟨sp,
        "expected `extend`, `provide`, `require`, or `implement`, found " ++
          tok.describe⟩) ∧
    (∀ t d, t.next = none → Item.parse t d = .error ⟨t.eof,
      "expected `extend`, `provide`, `require`, or `implement`, found eof"⟩) ∧
    (∀ t d sp t', t.next = some ((sp, Token.Extend), t') →
      Item.parse t d = (Extend.parse t).map (fun x => (Item.Extend x.1, x.2))) ∧
    (∀ t d sp t', t.next = some ((sp, Token.Provide), t') →
      Item.parse t d =
        (Provide.parse t d).map (fun x => (Item.Provide x.1, x.2))) ∧
    (∀ t d sp t', t.next = some ((sp, Token.Require), t') →
      Item.parse t d =
        (Require.parse t d).map (fun x => (Item.Require x.1, x.2))) ∧
    (∀ t d sp t', t.next = some ((sp, Token.Implement), t') →
      Item.parse t d =
        (Implement.parse t d).map (fun x => (Item.Implement x.1, x.2))) := by
  refine ⟨?_, ?_, ?_, ?_, ?_, ?_⟩
  · intro t d sp tok t' h h1 h2 h3 h4
    unfold Item.parse
    rw [h]
    cases tok <;> simp_all [Tokenizer.format_expected_error]
  · intro t d h
    unfold Item.parse
    rw [h]
    rfl
  · intro t d sp t' h
    unfold Item.parse
    rw [h]
  · intro t d sp t' h
    unfold Item.parse
    rw [h]
  · intro t d sp t' h
    unfold Item.parse
    rw [h]
  · intro t d sp t' h
    unfold Item.parse
    rw [h]

/-- Witness for claim C6: a stray `with` keyword at the top level produces
the error naming all four keywords, and peeking `extend` dispatches to
`Extend::parse` on the unconsumed state. -/
theorem claim_C6_witness :
    (Item.parse (mkTok [(⟨0, 4⟩, Token.With)]) ⟨[]⟩ =
      .error ⟨⟨0, 4⟩,
        "expected `extend`, `provide`, `require`, or `implement`, found " ++
          Token.With.describe⟩) ∧
    (Item.parse (mkTok [(⟨0, 6⟩, Token.Extend), (⟨7, 10⟩, Token.Id)]) ⟨[]⟩ =
      (Extend.parse (mkTok [(⟨0, 6⟩, Token.Extend), (⟨7, 10⟩, Token.Id)])).map
        (fun x => (Item.Extend x.1, x.2))) :=
  ⟨claim_C6.1 (mkTok [(⟨0, 4⟩, Token.With)]) ⟨[]⟩ ⟨0, 4⟩ Token.With
      ⟨[], 4, ⟨99, 99⟩, fun x => "s", fun x => "d"⟩
      (by unfold mkTok; rw [next_spec]; rfl)
      (by simp) (by simp) (by simp) (by simp),
    claim_C6.2.2.1 (mkTok [(⟨0, 6⟩, Token.Extend), (⟨7, 10⟩, Token.Id)]) ⟨[]⟩
      ⟨0, 6⟩ ⟨[(⟨7, 10⟩, Token.Id)], 6, ⟨99, 99⟩, fun x => "s", fun x => "d"⟩
      (by unfold mkTok; rw [next_spec]; rfl)⟩

/-- Claim C3: the docs attached to a declaration are exactly the maximal
contiguous run of comment tokens in front of it — whitespace never breaks
the run, any other token does, texts stay in source order — and the
docs-carrying parsers attach the collected docs verbatim, the driver
handing `Docs::parse`'s result straight to `Item::parse`. -/
theorem claim_C3 :
    (∀ toks pos e g p,
      (Docs.parse ⟨toks, pos, e, g, p⟩).1.docs =
        ((toks.takeWhile trivia).filter (fun x => x.2 = Token.Comment)).map
          (fun x => g x.1)) ∧
    (∀ t d t' x, Provide.parse t d = .ok (x, t') → x.docs = d) ∧
    (∀ t d t' x, Require.parse t d = .ok (x, t') → x.docs = d) ∧
    (∀ t d t' x, Implement.parse t d = .ok (x, t') → x.docs = d) ∧
    (∀ fuel t, t.next ≠ none →
      Ast.parseItems (fuel + 1) t =
        match Item.parse (Docs.parse t).2 (Docs.parse t).1 with
        | .error e2 => .error e2
        | .ok x => (Ast.parseItems fuel x.2).map (fun items => x.1 :: items)) := by
  refine ⟨?_, ?_, ?_, ?_, ?_⟩
  · intro toks pos e g p
    rw [docs_parse_spec]
  · intro t d t' x h
    obtain ⟨ksp, t1, t2, he, hid, hd, hsp, hteq⟩ := provide_ok_inv t t' d x h
    exact hd
  · intro t d t' x h
    obtain ⟨ksp, t1, t2, he, hid, hd, hsp, hteq⟩ := require_ok_inv t t' d x h
    exact hd
  · intro t d t' x h
    obtain ⟨ksp, t1, isp, t2, wsp, t3, csp, t4, h1, h2, h3, h4, hx, hteq⟩ :=
      implement_ok_inv t t' d x h
    rw [hx]
  · intro fuel t hn
    conv_lhs => rw [Ast.parseItems]
    cases hv : t.next with
    | none => exact absurd hv hn
    | some v =>
      dsimp only
      cases hi : Item.parse (Docs.parse t).2 (Docs.parse t).1 with
      | error e2 => rfl
      | ok w => obtain ⟨item, t2⟩ := w; rfl

/-- Witness for claim C3: a comment-whitespace-comment run in front of a
`provide` is collected in order, and the parsed `Provide` carries exactly
the docs value handed to it. -/
theorem claim_C3_witness :
    ((Docs.parse ⟨[(⟨0, 4⟩, Token.Comment), (⟨4, 5⟩, Token.Whitespace),
        (⟨5, 9⟩, Token.Comment), (⟨10, 17⟩, Token.Provide)], 0, ⟨99, 99⟩,
        fun x => "s", fun x => "d"⟩).1.docs =
      (([((⟨0, 4⟩ : Span), Token.Comment), (⟨4, 5⟩, Token.Whitespace),
        (⟨5, 9⟩, Token.Comment), (⟨10, 17⟩, Token.Provide)].takeWhile
          trivia).filter (fun x => x.2 = Token.Comment)).map
        (fun x => (fun y => "s") x.1)) ∧
    ((Provide.mk ⟨["a", "b"]⟩ ⟨0, 11⟩ ⟨"s", ⟨8, 11⟩⟩).docs = ⟨["a", "b"]⟩) :=
  ⟨claim_C3.1 [(⟨0, 4⟩, Token.Comment), (⟨4, 5⟩, Token.Whitespace),
      (⟨5, 9⟩, Token.Comment), (⟨10, 17⟩, Token.Provide)] 0 ⟨99, 99⟩
      (fun x => "s") (fun x => "d"),
    claim_C3.2.1 (mkTok [(⟨0, 7⟩, Token.Provide), (⟨8, 11⟩, Token.Id)])
      ⟨["a", "b"]⟩ ⟨[], 11, ⟨99, 99⟩, fun x => "s", fun x => "d"⟩
      (Provide.mk ⟨["a", "b"]⟩ ⟨0, 11⟩ ⟨"s", ⟨8, 11⟩⟩)
      (by unfold mkTok
          simp [Provide.parse, Tokenizer.expect, Id.parse, next_spec, trivia,
            bind, Except.bind, List.dropWhile])⟩

theorem lastEnd_le_head (toks : List (Span × Token)) (pos : Nat)
    (hpw : toks.Pairwise (fun a b => a.1.end_ ≤ b.1.start))
    (hpos : ∀ x ∈ toks, pos ≤ x.1.start) :
    ∀ z, (toks.dropWhile trivia).head? = some z →
      lastEnd pos (toks.takeWhile trivia) ≤ z.1.start := by
  induction toks generalizing pos with
  | nil => intro z hz; simp [List.dropWhile] at hz
  | cons x rest ih =>
    intro z hz
    by_cases h : trivia x
    · rw [List.dropWhile_cons_of_pos h] at hz
      rw [List.takeWhile_cons_of_pos h]
      rw [lastEnd]
      exact ih x.1.end_ (List.pairwise_cons.mp hpw).2
        (fun y hy => (List.pairwise_cons.mp hpw).1 y hy) z hz
    · rw [List.dropWhile_cons_of_neg h] at hz
      rw [List.takeWhile_cons_of_neg h]
      simp only [List.head?_cons, Option.some.injEq] at hz
      subst hz
      exact hpos x (List.mem_cons_self _ _)

/-- Claim C1 (amended): after `Docs::parse` returns, the committed cursor
position is exactly the end of the last whitespace-or-comment token it
consumed (the starting position when it consumed none) — the code commits
the cloned cursor after whitespace tokens too, not only after comments —
and it never lies past the terminating non-comment, non-whitespace token;
the declaration parser invoked next sees exactly the same first filtered
token as before the collection. -/
theorem claim_C1 (toks : List (Span × Token)) (pos : Nat) (e : Span)
    (g p : Span → String)
    (ho : Ordered ⟨toks, pos, e, g, p⟩)
    (hpos : ∀ x ∈ toks, pos ≤ x.1.start) :
    ((Docs.parse ⟨toks, pos, e, g, p⟩).2.pos =
      lastEnd pos (toks.takeWhile trivia)) ∧
    (∀ z, ((Docs.parse ⟨toks, pos, e, g, p⟩).2.tokens).head? = some z →
      (Docs.parse ⟨toks, pos, e, g, p⟩).2.pos ≤ z.1.start) ∧
    ((Docs.parse ⟨toks, pos, e, g, p⟩).2.next =
      Tokenizer.next ⟨toks, pos, e, g, p⟩) := by
  rw [docs_parse_spec]
  refine ⟨rfl, ?_, ?_⟩
  · intro z hz
    exact lastEnd_le_head toks pos ho.1 hpos z hz
  · rw [next_spec, next_spec, List.dropWhile_idempotent]

/-- Claim C1 counterexample: on whitespace followed by `extend` the doc
collector consumes no comment, yet the committed cursor ends at 1 (the end
of the whitespace token) instead of the starting position 0 that the
claim demands. -/
theorem claim_C1_counterexample :
    ((Docs.parse (mkTok [(⟨0, 1⟩, Token.Whitespace),
        (⟨1, 7⟩, Token.Extend)])).1.docs = []) ∧
    (Docs.parse (mkTok [(⟨0, 1⟩, Token.Whitespace),
        (⟨1, 7⟩, Token.Extend)])).2.pos ≠
      (mkTok [(⟨0, 1⟩, Token.Whitespace), (⟨1, 7⟩, Token.Extend)]).pos := by
  unfold mkTok
  rw [docs_parse_spec]
  refine ⟨?_, ?_⟩
  · simp [trivia, lastEnd, List.takeWhile, List.filter]
  · simp [trivia, lastEnd, List.takeWhile]

/-- Witness for claim C1 at a comment-then-`extend` stream: the cursor
lands on the comment's end, stays at or before the `extend` token's start,
and the filtered view is unchanged. -/
theorem claim_C1_witness :
    (((Docs.parse ⟨[(⟨0, 2⟩, Token.Comment), (⟨3, 9⟩, Token.Extend)], 0,
        ⟨99, 99⟩, fun x => "s", fun x => "d"⟩).2.pos =
      lastEnd 0 ([((⟨0, 2⟩ : Span), Token.Comment),
        (⟨3, 9⟩, Token.Extend)].takeWhile trivia)) ∧
    (∀ z, ((Docs.parse ⟨[(⟨0, 2⟩, Token.Comment), (⟨3, 9⟩, Token.Extend)], 0,
        ⟨99, 99⟩, fun x => "s", fun x => "d"⟩).2.tokens).head? = some z →
      (Docs.parse ⟨[(⟨0, 2⟩, Token.Comment), (⟨3, 9⟩, Token.Extend)], 0,
        ⟨99, 99⟩, fun x => "s", fun x => "d"⟩).2.pos ≤ z.1.start) ∧
    ((Docs.parse ⟨[(⟨0, 2⟩, Token.Comment), (⟨3, 9⟩, Token.Extend)], 0,
        ⟨99, 99⟩, fun x => "s", fun x => "d"⟩).2.next =
      Tokenizer.next ⟨[(⟨0, 2⟩, Token.Comment), (⟨3, 9⟩, Token.Extend)], 0,
        ⟨99, 99⟩, fun x => "s", fun x => "d"⟩)) :=
  claim_C1 [(⟨0, 2⟩, Token.Comment), (⟨3, 9⟩, Token.Extend)] 0 ⟨99, 99⟩
    (fun x => "s") (fun x => "d")
    (by unfold Ordered; exact ⟨by decide, by decide⟩) (by decide)

/-- Claim C8: an input whose tokens are exclusively whitespace and
comments — the empty input included — parses successfully to the empty
declaration sequence; trailing comments are silently discarded. -/
theorem claim_C8 (t : Tokenizer)
    (h : ∀ x ∈ t.tokens, x.2 = Token.Whitespace ∨ x.2 = Token.Comment) :
    Ast.parse t = .ok ⟨[]⟩ := by
  have hnone : t.next = none := by
    obtain ⟨toks, pos, e, g, p⟩ := t
    rw [next_spec]
    have hd : toks.dropWhile trivia = [] :=
      List.dropWhile_eq_nil_iff.mpr (fun x hx => by
        simp only [trivia, decide_eq_true_eq]
        exact h x hx)
    rw [hd]
  unfold Ast.parse
  conv_lhs => rw [Ast.parseItems]
  rw [hnone]
  rfl

/-- Witness for claim C8: the empty input and a comment-plus-whitespace
input both yield the empty declaration sequence. -/
theorem claim_C8_witness :
    Ast.parse (mkTok []) = .ok ⟨[]⟩ ∧
    Ast.parse (mkTok [(⟨0, 2⟩, Token.Comment), (⟨2, 3⟩, Token.Whitespace)]) =
      .ok ⟨[]⟩ :=
  ⟨claim_C8 (mkTok []) (by decide),
    claim_C8 (mkTok [(⟨0, 2⟩, Token.Comment), (⟨2, 3⟩, Token.Whitespace)])
      (by decide)⟩

/-- Claim C9: an `extend` declaration carries no docs — the dispatched
result is independent of the collected docs value, an `Extend` holds
nothing but a span and a profile identifier, and a comment-preceded
`extend` still parses, the comment being discarded rather than attached. -/
theorem claim_C9 :
    (∀ t d1 d2 sp t', t.next = some ((sp, Token.Extend), t') →
      Item.parse t d1 = Item.parse t d2) ∧
    (∀ x : Extend, x = ⟨x.span, x.profile⟩) ∧
    (Ast.parse (mkTok [(⟨0, 5⟩, Token.Comment), (⟨5, 6⟩, Token.Whitespace),
        (⟨6, 12⟩, Token.Extend), (⟨12, 13⟩, Token.Whitespace),
        (⟨13, 16⟩, Token.Id)]) =
      .ok ⟨[Item.Extend ⟨⟨6, 16⟩, ⟨"s", ⟨13, 16⟩⟩⟩]⟩) := by
  refine ⟨?_, ?_, ?_⟩
  · intro t d1 d2 sp t' h
    unfold Item.parse
    rw [h]
  · intro x
    rfl
  · unfold mkTok Ast.parse
    simp [Ast.parseItems, Item.parse, Extend.parse, Id.parse, Tokenizer.expect,
      Tokenizer.format_expected_error, docs_parse_spec, next_spec, trivia,
      lastEnd, Except.map, bind, Except.bind, List.dropWhile, List.takeWhile]

/-- Witness for claim C9: dispatching `extend` under two different docs
values produces identical results. -/
theorem claim_C9_witness :
    Item.parse (mkTok [(⟨0, 6⟩, Token.Extend), (⟨7, 10⟩, Token.Id)]) ⟨["a"]⟩ =
      Item.parse (mkTok [(⟨0, 6⟩, Token.Extend), (⟨7, 10⟩, Token.Id)]) ⟨["b"]⟩ :=
  claim_C9.1 (mkTok [(⟨0, 6⟩, Token.Extend), (⟨7, 10⟩, Token.Id)])
    ⟨["a"]⟩ ⟨["b"]⟩ ⟨0, 6⟩
    ⟨[(⟨7, 10⟩, Token.Id)], 6, ⟨99, 99⟩, fun x => "s", fun x => "d"⟩
    (by unfold mkTok; rw [next_spec]; rfl)

/-- Claim C10: `Provide::parse` and `Require::parse` are the same parser
up to the result tag — both factor through the shared
keyword-then-identifier shape, differing only in the expected keyword and
the constructor applied to the result. -/
theorem claim_C10 (t : Tokenizer) (d : Docs) :
    Provide.parse t d = (parseDocsKeywordId Token.Provide t d).map
      (fun x => (⟨x.1.1, x.1.2.1, x.1.2.2⟩, x.2)) ∧
    Require.parse t d = (parseDocsKeywordId Token.Require t d).map
      (fun x => (⟨x.1.1, x.1.2.1, x.1.2.2⟩, x.2)) := by
  constructor
  · unfold Provide.parse parseDocsKeywordId
    simp only [bind, Except.bind]
    cases he : t.expect Token.Provide with
    | error e => rfl
    | ok v =>
      obtain ⟨sp, t1⟩ := v
      dsimp only
      cases hid : Id.parse t1 with
      | error e => rfl
      | ok w => obtain ⟨i, t2⟩ := w; rfl
  · unfold Require.parse parseDocsKeywordId
    simp only [bind, Except.bind]
    cases he : t.expect Token.Require with
    | error e => rfl
    | ok v =>
      obtain ⟨sp, t1⟩ := v
      dsimp only
      cases hid : Id.parse t1 with
      | error e => rfl
      | ok w => obtain ⟨i, t2⟩ := w; rfl

/-- Claim C7: a successful parse returns the declarations in exactly the
order they appear in the source text: over a well-formed (left-to-right)
token stream, consecutive item spans never overlap and never swap — each
span ends before every later span starts. -/
theorem claim_C7 (t : Tokenizer) (items : List Item) (ho : Ordered t)
    (h : Ast.parse t = .ok ⟨items⟩) :
    (items.map Item.span).Pairwise (fun a b => a.end_ ≤ b.start) := by
  unfold Ast.parse at h
  cases hp : Ast.parseItems (t.tokens.length + 1) t with
  | error e => rw [hp] at h; simp [Except.map] at h
  | ok l =>
    rw [hp] at h
    simp only [Except.map, Except.ok.injEq, Ast.mk.injEq] at h
    subst h
    exact (parse_items_ordered (t.tokens.length + 1) t l ho hp).1

/-- Witness for claim C7: `extend` then `provide` over an ordered stream
yields two items with disjoint, increasing spans. -/
theorem claim_C7_witness :
    (([Item.Extend ⟨⟨0, 10⟩, ⟨"s", ⟨7, 10⟩⟩⟩,
      Item.Provide ⟨⟨[]⟩, ⟨11, 22⟩, ⟨"s", ⟨19, 22⟩⟩⟩].map Item.span).Pairwise
      (fun a b => a.end_ ≤ b.start)) :=
  claim_C7 (mkTok [(⟨0, 6⟩, Token.Extend), (⟨7, 10⟩, Token.Id),
      (⟨11, 18⟩, Token.Provide), (⟨19, 22⟩, Token.Id)])
    [Item.Extend ⟨⟨0, 10⟩, ⟨"s", ⟨7, 10⟩⟩⟩,
      Item.Provide ⟨⟨[]⟩, ⟨11, 22⟩, ⟨"s", ⟨19, 22⟩⟩⟩]
    (by unfold Ordered mkTok; exact ⟨by decide, by decide⟩)
    (by unfold mkTok Ast.parse
        simp [Ast.parseItems, Item.parse, Extend.parse, Provide.parse, Id.parse,
          Tokenizer.expect, Tokenizer.format_expected_error, docs_parse_spec,
          next_spec, trivia, lastEnd, Except.map, bind, Except.bind,
          List.dropWhile, List.takeWhile])

end Profile
